import Mathlib

/-!
Verification development for the lemonbanjos/website front-end scripts.

The repository contains several near-duplicate implementations of the same
option/pricing engine:

* `src/assets/js/productInfo.js` — two variants in one file: the original
  sheet-driven product page (loadData / canon / calcPrice / renderOptions with
  pruneInvalidDependents and normalizeDependents) and a "unified loader"
  rewrite of the same page.
* `src/_site/assets/js/customBuilder.js` — the custom-builder page
  (loadBuilderData / updateOptionVisibility / recalcPrice).
* `src/unnamed/part_004` — the neck product page (loadData /
  updateOptionVisibility / recalcPrice).
* `src/assets/js/seriesCards.js` — the card grids (getProducts).

This file gives a shallow embedding of the data model (cells, options,
catalogs, selection maps) and of the operations the specification's claims
are about: the canonicalizer, the boolean/number cell coercions, the
product-row normalization, the settlement pass (prune + normalize of
dependent groups), and the two pricing calculators.  JavaScript numbers are
modelled as exact rationals, with an explicit `JsNum` wrapper where NaN
from `Number(...)` coercion is observable; the ASCII strings exercised here
are modelled with Lean strings.
-/

/-! ## JavaScript value model -/

/-- A spreadsheet cell value as delivered by gviz: JS `null`, a string, a
number, or a boolean.  (`rows` maps `c?.v ?? null`, so `undefined` has
already been collapsed into `null`.) -/
inductive Cell where
  | null : Cell
  | str (s : String) : Cell
  | num (q : ℚ) : Cell
  | bool (b : Bool) : Cell
deriving DecidableEq, Repr

/-- A JS number that may be NaN (the result of a failed `Number(...)`
coercion).  Finite values are modelled exactly as rationals. -/
inductive JsNum where
  | nan : JsNum
  | val (q : ℚ) : JsNum
deriving DecidableEq, Repr

/-- JS truthiness of a cell: `null` and `undefined` are falsy, `""` is
falsy, the number 0 is falsy, `false` is falsy; everything else is truthy. -/
def truthy : Cell → Bool
  | Cell.null => false
  | Cell.str s => s ≠ ""
  | Cell.num q => q ≠ 0
  | Cell.bool b => b

/-- Characters the JS `String.prototype.trim` removes (the whitespace
characters occurring in this development: space, tab, line feed, carriage
return, vertical tab, form feed and the no-break space). -/
def isJsSpace (c : Char) : Bool :=
  c = ' ' ∨ c = '\t' ∨ c = '\n' ∨ c = '\r' ∨ c = '\x0b' ∨ c = '\x0c' ∨ c = ' '

/-- Trim: drop leading and trailing whitespace. -/
def jsTrim (l : List Char) : List Char :=
  ((l.dropWhile isJsSpace).reverse.dropWhile isJsSpace).reverse

/-- `cleanStr` from the scripts, on the character list level:
`String(v).replace(/ /g, ' ').trim()`. -/
def cleanChars (l : List Char) : List Char :=
  jsTrim (l.map (fun c => if c = ' ' then ' ' else c))

/-- `cleanStr` on an actual string (the `v == null` guard lives at the
`Cell` level, in `cleanCell`). -/
def cleanStrS (s : String) : String :=
  String.mk (cleanChars s.data)

/-- `String.prototype.toLowerCase` on the ASCII strings of this
development (Lean's `Char.toLower` lower-cases exactly the ASCII letters). -/
def strToLower (s : String) : String :=
  String.mk (s.data.map Char.toLower)

/-- `lc` from productInfo.js: `cleanStr(v).toLowerCase()`, for string
inputs. -/
def lcString (s : String) : String :=
  strToLower (cleanStrS s)

/-- JS `String(q)` for a numeric cell.  The numeric cells exercised in this
development are integers, rendered in decimal just as JS renders them; a
non-integral rational is rendered as numerator/denominator, which is not
JS-exact but is never the word "true" or "false" either, which is all the
coercions below inspect. -/
def numToString (q : ℚ) : String :=
  if q.den = 1 then toString q.num else toString q.num ++ "/" ++ toString q.den

/-- JS `String(v)` for a cell. -/
def jsCellToString : Cell → String
  | Cell.null => "null"
  | Cell.str s => s
  | Cell.num q => numToString q
  | Cell.bool b => if b then "true" else "false"

/-- `cleanStr(v)` applied to a raw cell: `v == null ? '' :
String(v).replace(/ /g,' ').trim()`. -/
def cleanCell : Cell → String
  | Cell.null => ""
  | c => cleanStrS (jsCellToString c)

/-- Decimal digit test. -/
def isDigitCh (c : Char) : Bool :=
  '0' ≤ c ∧ c ≤ '9'

/-- Numeric value of a run of decimal digits. -/
def natOfDigits (l : List Char) : Nat :=
  l.foldl (fun n c => 10 * n + (c.toNat - '0'.toNat)) 0

/-- Parse an unsigned decimal numeral, optionally with a fractional part
(`digits`, `digits.digits`, `.digits`, `digits.`); anything else fails. -/
def parseUnsigned (l : List Char) : Option ℚ :=
  let intPart := l.takeWhile isDigitCh
  let rest := l.dropWhile isDigitCh
  match rest with
  | [] => if intPart = [] then none else some (natOfDigits intPart)
  | '.' :: frac =>
    if frac.all isDigitCh ∧ (intPart ≠ [] ∨ frac ≠ []) then
      some ((natOfDigits intPart : ℚ) + (natOfDigits frac : ℚ) / (10 : ℚ) ^ frac.length)
    else none
  | _ => none

/-- JS `Number(string)`: trims whitespace, the empty string is 0, and a
signed decimal numeral parses to its value; any other string is NaN.  (The
cell values in this repository's sheets are plain decimals; the further
numeric forms JS accepts — hex, exponents, "Infinity" — do not occur.) -/
def jsParseNumber (s : String) : JsNum :=
  let t := jsTrim s.data
  match t with
  | [] => JsNum.val 0
  | '-' :: rest =>
    match parseUnsigned rest with
    | some q => JsNum.val (-q)
    | none => JsNum.nan
  | '+' :: rest =>
    match parseUnsigned rest with
    | some q => JsNum.val q
    | none => JsNum.nan
  | _ =>
    match parseUnsigned t with
    | some q => JsNum.val q
    | none => JsNum.nan

/-- JS `Number(v)` for a cell: `null` is 0, booleans are 0/1, numbers are
themselves, strings are parsed. -/
def jsNumber : Cell → JsNum
  | Cell.null => JsNum.val 0
  | Cell.bool b => JsNum.val (if b then 1 else 0)
  | Cell.num q => JsNum.val q
  | Cell.str s => jsParseNumber s

/-! ## Canonicalizer -/

/-- ASCII alphanumeric test: the character class `[0-9A-Za-z]` of the
canon regex. -/
def isAlnum (c : Char) : Bool :=
  ('0' ≤ c ∧ c ≤ '9') ∨ ('A' ≤ c ∧ c ≤ 'Z') ∨ ('a' ≤ c ∧ c ≤ 'z')

/-- `replace(/[^0-9A-Za-z]+/g, ' ')`: each maximal run of non-alphanumeric
characters becomes a single space.  The boolean argument records whether we
are inside such a run (so only its first character emits the space). -/
def collapseNonAlnum : List Char → Bool → List Char
  | [], _ => []
  | c :: rest, inRun =>
    if isAlnum c then c :: collapseNonAlnum rest false
    else if inRun then collapseNonAlnum rest true
    else ' ' :: collapseNonAlnum rest true

/-- Unicode NFKC compatibility normalization (`normalize('NFKC')`), which
is the identity on the ASCII strings handled in this development. -/
def nfkc (l : List Char) : List Char := l

/-- `canon` from productInfo.js (both variants in that file):
`cleanStr(s).normalize('NFKC').replace(/[^0-9A-Za-z]+/g, ' ').trim()
.toLowerCase()`. -/
def canonPI (s : String) : String :=
  String.mk ((jsTrim (collapseNonAlnum (nfkc (cleanChars s.data)) false)).map Char.toLower)

/-- `canon` from customBuilder.js and part_004:
`cleanStr(s).toLowerCase()` — no normalization and no collapsing of
punctuation or spacing. -/
def canonCB (s : String) : String :=
  strToLower (cleanStrS s)


/-! ## Options, catalogs and selections

`renderOptions` in productInfo.js works on `entries = Object.entries
(optionsByCanon)` (each list sorted by `sort`), splits them into provider
and dependent groups, and repairs the selection `Map` with
`pruneInvalidDependents` followed by `normalizeDependents` (invoked
together from `draw()` — the settlement pass). -/

/-- A normalized option row (the object pushed onto
`optionsByCanon[groupCanon]`).  `dep_groupCanon = ""` models the JS `null`
/ empty canon key (both falsy, tested with `!option.dep_groupCanon`). -/
structure Opt where
  option_name : String
  price_type : String
  price_delta : ℚ
  visible : Bool
  sort : ℚ
  dep_groupCanon : String
  dep_value : String
  is_default : Bool
deriving DecidableEq, Repr

/-- A catalog: the `Object.entries(optionsByCanon)` list — canonical group
key paired with that group's option list, in object insertion order.
JS object keys are unique; theorems that need this carry it as a
hypothesis. -/
abbrev Catalog := List (String × List Opt)

/-- A selection: the `selected` map (`Map<groupCanon, option_name>` in
productInfo.js, a plain object elsewhere), as an association list in
insertion order with unique keys. -/
abbrev Sel := List (String × String)

/-- `selected.get(g)`. -/
def selGet : Sel → String → Option String
  | [], _ => none
  | (k, v) :: rest, g => if k = g then some v else selGet rest g

/-- `selected.set(g, v)`: replace the value in place if the key exists,
otherwise append the new entry (JS `Map` insertion-order semantics). -/
def selSet : Sel → String → String → Sel
  | [], g, v => [(g, v)]
  | (k, w) :: rest, g, v =>
    if k = g then (k, v) :: rest else (k, w) :: selSet rest g v

/-- `selected.delete(g)`. -/
def selDel : Sel → String → Sel
  | [], _ => []
  | (k, w) :: rest, g =>
    if k = g then selDel rest g else (k, w) :: selDel rest g

/-- Whether an option carries a dependency: JS truthiness of
`option.dep_groupCanon`. -/
def hasDep (o : Opt) : Bool :=
  o.dep_groupCanon ≠ ""

/-- `dependencyOk(option, selectedMap)` from productInfo.js: options
without a dependency always pass; otherwise the lower-cased cleaned
selection value for the dependency group must be nonempty and equal the
lower-cased cleaned required value. -/
def dependencyOk (o : Opt) (s : Sel) : Bool :=
  if o.dep_groupCanon = "" then true
  else
    let selectedVal := match selGet s o.dep_groupCanon with
      | none => ""
      | some v => lcString v
    if selectedVal = "" then false
    else selectedVal = lcString o.dep_value

/-- The valid subset of a dependent group's option list:
`list.filter(o => o.visible && dependencyOk(o, selected))`. -/
def validOf (l : List Opt) (s : Sel) : List Opt :=
  l.filter (fun o => o.visible && dependencyOk o s)

/-- `chooseDefault(validList, currentName)`: keep a truthy current name
that still occurs in the valid list; otherwise prefer the option flagged
`is_default`; otherwise the first valid option. -/
def chooseDefault (validList : List Opt) (currentName : Option String) : Option String :=
  match validList with
  | [] => none
  | first :: _ =>
    if (match currentName with
        | some c => c ≠ "" && validList.any (fun o => o.option_name = c)
        | none => false) then currentName
    else
      match validList.find? (fun o => o.is_default) with
      | some d => some d.option_name
      | none => some first.option_name

/-- A group is dependent iff some of its options carries a dependency
(`list.some(o => o.dep_groupCanon)`). -/
def isDependentGroup (l : List Opt) : Bool :=
  l.any hasDep

/-- The dependent entries of a catalog, in order. -/
def dependentsOf (cat : Catalog) : Catalog :=
  cat.filter (fun e => isDependentGroup e.2)

/-- The provider entries of a catalog, in order. -/
def providersOf (cat : Catalog) : Catalog :=
  cat.filter (fun e => !isDependentGroup e.2)

/-- One step of `pruneInvalidDependents`: if a dependent group has no valid
option, delete its selection entry. -/
def pruneGroup (s : Sel) (g : String) (l : List Opt) : Sel :=
  if validOf l s = [] then selDel s g else s

/-- `pruneInvalidDependents()`: iterate `pruneGroup` over the dependent
entries, mutating the selection as it goes. -/
def pruneDependents : Catalog → Sel → Sel
  | [], s => s
  | e :: rest, s => pruneDependents rest (pruneGroup s e.1 e.2)

/-- One step of `normalizeDependents`: recompute the valid subset, run
`chooseDefault` against it, and set or delete the group's entry. -/
def normGroup (s : Sel) (g : String) (l : List Opt) : Sel :=
  match chooseDefault (validOf l s) (selGet s g) with
  | some n => selSet s g n
  | none => selDel s g

/-- `normalizeDependents()`: iterate `normGroup` over the dependent
entries. -/
def normalizeDependents : Catalog → Sel → Sel
  | [], s => s
  | e :: rest, s => normalizeDependents rest (normGroup s e.1 e.2)

/-- The settlement pass run by `draw()`: `pruneInvalidDependents()` then
`normalizeDependents()`, each over the catalog's dependent entries, exactly
once. -/
def settle (cat : Catalog) (s : Sel) : Sel :=
  normalizeDependents (dependentsOf cat) (pruneDependents (dependentsOf cat) s)

/-- Helper for concrete option rows: a visible option with the given name,
dependency target and required value, default flag, and price data. -/
def mkOpt (name : String) (dep : String) (depVal : String) (isDef : Bool)
    (ptype : String := "add") (delta : ℚ := 0) : Opt :=
  { option_name := name
    price_type := ptype
    price_delta := delta
    visible := true
    sort := 0
    dep_groupCanon := dep
    dep_value := depVal
    is_default := isDef }

/-- Two-hop catalog: provider `a`; dependent `b` whose only option requires
`c = "C1"`; dependent `c` whose options require `a = "A1"` / `a = "A2"`. -/
def catTwoHop : Catalog :=
  [("a", [mkOpt "A1" "" "" true, mkOpt "A2" "" "" false]),
   ("b", [mkOpt "B1" "c" "C1" false]),
   ("c", [mkOpt "C1" "a" "A1" false, mkOpt "C2" "a" "A2" false])]


/-! ## Pricing calculator of productInfo.js -/

/-- `optionsByCanon[canonGroup] || []`: the option list stored under a
canonical group key, or the empty list. -/
def catFind : Catalog → String → List Opt
  | [], _ => []
  | e :: rest, g => if e.1 = g then e.2 else catFind rest g

/-- The accumulation loop of `calcPrice(base, selected, optionsByCanon)`:
for each selected `(group, optionName)` pair, find the option by exact name
in that group's list (skip if absent) and add its delta — `add`/`abs` add
the delta, `pct` adds `base * (delta / 100)` with `base` the function's
base argument. -/
def calcPriceAux (base : ℚ) (cat : Catalog) : Sel → ℚ → ℚ
  | [], total => total
  | (g, name) :: rest, total =>
    match (catFind cat g).find? (fun o => o.option_name = name) with
    | none => calcPriceAux base cat rest total
    | some item =>
      if item.price_type = "add" then
        calcPriceAux base cat rest (total + item.price_delta)
      else if item.price_type = "pct" then
        calcPriceAux base cat rest (total + base * (item.price_delta / 100))
      else if item.price_type = "abs" then
        calcPriceAux base cat rest (total + item.price_delta)
      else calcPriceAux base cat rest total

/-- `calcPrice` from productInfo.js (both variants): start from the base
and run the accumulation loop over the selection in iteration order. -/
def calcPrice (base : ℚ) (sel : Sel) (cat : Catalog) : ℚ :=
  calcPriceAux base cat sel base

/-- The price contribution of one resolved option, as a function of the
original base only. -/
def optContribution (base : ℚ) (item : Opt) : ℚ :=
  if item.price_type = "add" then item.price_delta
  else if item.price_type = "pct" then base * (item.price_delta / 100)
  else if item.price_type = "abs" then item.price_delta
  else 0

/-- The contribution of one selection pair: resolve the option by exact
name in its group (0 when absent) and take its contribution. -/
def pairContribution (base : ℚ) (cat : Catalog) (p : String × String) : ℚ :=
  match (catFind cat p.1).find? (fun o => o.option_name = p.2) with
  | none => 0
  | some item => optContribution base item

/-! ## Pricing calculator of part_004 / customBuilder.js (`recalcPrice`) -/

/-- The product fields `recalcPrice` reads. -/
structure ProductP where
  base_price : ℚ
  sale_price : ℚ
  sale_active : Bool
deriving DecidableEq, Repr

/-- The loop body of `recalcPrice`: iterate over the catalog's entries; for
each group with a chosen option name, resolve the option by exact name and
add its delta to the regular total, and — only while `p.sale_active &&
totalSale > 0` — to the sale total, percent deltas being taken of the
respective base. -/
def recalcAux (saleActive : Bool) (baseRegular baseSale : ℚ) (sel : Sel) :
    Catalog → ℚ × ℚ → ℚ × ℚ
  | [], acc => acc
  | (g, opts) :: rest, acc =>
    match selGet sel g with
    | none => recalcAux saleActive baseRegular baseSale sel rest acc
    | some chosen =>
      if chosen = "" then recalcAux saleActive baseRegular baseSale sel rest acc
      else
        match opts.find? (fun o => o.option_name = chosen) with
        | none => recalcAux saleActive baseRegular baseSale sel rest acc
        | some opt =>
          if opt.price_type = "percent" then
            recalcAux saleActive baseRegular baseSale sel rest
              (acc.1 + baseRegular * (opt.price_delta / 100),
               if saleActive = true ∧ 0 < acc.2 then
                 acc.2 + baseSale * (opt.price_delta / 100)
               else acc.2)
          else
            recalcAux saleActive baseRegular baseSale sel rest
              (acc.1 + opt.price_delta,
               if saleActive = true ∧ 0 < acc.2 then acc.2 + opt.price_delta
               else acc.2)

/-- `recalcPrice` from part_004 (and, identically structured,
customBuilder.js): `baseSale` is the sale price when the sale is active and
0 otherwise, and both running totals start at their bases. -/
def recalcPrice (p : ProductP) (cat : Catalog) (sel : Sel) : ℚ × ℚ :=
  recalcAux p.sale_active p.base_price (if p.sale_active then p.sale_price else 0)
    sel cat (p.base_price, if p.sale_active then p.sale_price else 0)

/-- The regular-price accumulation of `recalcPrice` as a function of an
arbitrary base: the same loop, same option resolution, no guard. -/
def priceFromBaseAux (base : ℚ) (sel : Sel) : Catalog → ℚ → ℚ
  | [], t => t
  | (g, opts) :: rest, t =>
    match selGet sel g with
    | none => priceFromBaseAux base sel rest t
    | some chosen =>
      if chosen = "" then priceFromBaseAux base sel rest t
      else
        match opts.find? (fun o => o.option_name = chosen) with
        | none => priceFromBaseAux base sel rest t
        | some opt =>
          if opt.price_type = "percent" then
            priceFromBaseAux base sel rest (t + base * (opt.price_delta / 100))
          else priceFromBaseAux base sel rest (t + opt.price_delta)

/-- The regular-price accumulation algorithm over a given base. -/
def priceFromBase (base : ℚ) (cat : Catalog) (sel : Sel) : ℚ :=
  priceFromBaseAux base sel cat base

/-! ## Normalizer cell coercions -/

/-- Boolean coercion in productInfo.js's original `loadData` (used for both
`is_default` and `visible`): `String(x).toLowerCase() === 'true' ||
x === true`.  `String(...)` renders `null` as "null", booleans as
"true"/"false" and numbers as decimal digits — of these only the boolean
`true` produces the word "true" — so the coercion holds exactly for the
boolean `true` and for strings that lower-case to "true". -/
def toBoolPI : Cell → Bool
  | Cell.bool b => b
  | Cell.str s => strToLower s = "true"
  | _ => false

/-- Boolean coercion in customBuilder.js `loadBuilderData`, part_004
`loadData` and seriesCards.js `getProducts`: `v === true || (typeof v ===
'string' && v.toLowerCase() === 'true') || (typeof v === 'number' &&
v === 1)`. -/
def toBool3 (c : Cell) : Bool :=
  c = Cell.bool true ||
  (match c with
   | Cell.str s => strToLower s = "true"
   | _ => false) ||
  (match c with
   | Cell.num q => q = 1
   | _ => false)

/-- The `visible` coercion of productInfo.js's unified-loader variant:
`String(visible).toLowerCase() !== 'false'`.  `String(null)` is "null" and
numbers render as digits, so everything except the boolean `false` and
strings that lower-case to "false" counts as visible. -/
def visibleV2 : Cell → Bool
  | Cell.bool b => b
  | Cell.str s => ¬(strToLower s = "false")
  | _ => true

/-- Price-delta coercion of productInfo.js's original `loadData` (line
`Number(priceDelta || 0)`) and customBuilder.js (`Number(priceDelta ||
0)`): the 0-defaulting happens before the parse, so only falsy cells
default and a non-numeric truthy string becomes NaN. -/
def priceDeltaV1 (c : Cell) : JsNum :=
  jsNumber (if truthy c then c else Cell.num 0)

/-- Price-delta coercion of productInfo.js's unified-loader variant
(`+price_delta || 0`): the parse happens first and NaN (falsy) falls back
to 0. -/
def priceDeltaV2 (c : Cell) : ℚ :=
  match jsNumber c with
  | JsNum.nan => 0
  | JsNum.val q => q

/-! ## Sale-activation and product-row normalization -/

/-- Strictly-positive test on a JS number; false for NaN (as `NaN > 0`
is). -/
def jsGtZero : JsNum → Bool
  | JsNum.nan => false
  | JsNum.val q => 0 < q

/-- `Number(salePrice || 0)`: the parsed sale base. -/
def saleBaseOf (saleCell : Cell) : JsNum :=
  jsNumber (if truthy saleCell then saleCell else Cell.num 0)

/-- The `sale_active` computation, identical in customBuilder.js
`loadBuilderData`, part_004 `loadData` and seriesCards.js `getProducts`:
the boolean-ish active flag AND `sale_price > 0`. -/
def saleActiveOf (activeCell saleCell : Cell) : Bool :=
  toBool3 activeCell && jsGtZero (saleBaseOf saleCell)

/-- The product record built by productInfo.js's original `loadData`. -/
structure ProductV1 where
  model_id : Cell
  title : String
  series : String
  base_price : JsNum
deriving DecidableEq, Repr

/-- Product-row normalization of productInfo.js's original `loadData`: the
first row of the key-filtered Products query; if its key cell is falsy the
load throws `Product not found`, otherwise the record is built. -/
def loadProduct1 (prodRows : List (List Cell)) : Except String ProductV1 :=
  let r := prodRows.headD []
  let pKey := r.getD 0 Cell.null
  let pTitle := r.getD 1 Cell.null
  let pSeries := r.getD 2 Cell.null
  let pBase := r.getD 3 Cell.null
  if truthy pKey then
    Except.ok
      { model_id := pKey
        title := cleanCell (if truthy pTitle then pTitle else pKey)
        series := cleanCell pSeries
        base_price := jsNumber (if truthy pBase then pBase else Cell.num 0) }
  else Except.error "Product not found"

/-- JS `a ?? b` on cells (`undefined` is already folded into `null`). -/
def coalesce (a b : Cell) : Cell :=
  match a with
  | Cell.null => b
  | c => c

/-- `cellByHeader(row, idx, header)` of the unified-loader variant: look
the canonicalized header up in the header-index map; null when the header
is unknown or the cell is empty. -/
def cellByHeader (row : List Cell) (idx : String → Option Nat) (h : String) : Cell :=
  match idx (canonPI h) with
  | none => Cell.null
  | some i => row.getD i Cell.null

/-- `+x || 0`: a parsed number with NaN (and 0) collapsed to 0. -/
def jsOr0 : JsNum → ℚ
  | JsNum.nan => 0
  | JsNum.val q => q

/-- The product record built by productInfo.js's unified-loader variant. -/
structure ProductV2 where
  model_id : String
  title : String
  series : String
  base_price : ℚ
deriving DecidableEq, Repr

/-- Product-row normalization of the unified-loader variant: find the row
whose (header-addressed or first) cell cleans to the model key, defaulting
to the EMPTY row when none matches (`|| []`), and build the record from
whatever that row holds — there is no not-found signal. -/
def loadProduct2 (idx : String → Option Nat) (prodRows : List (List Cell))
    (model : String) : ProductV2 :=
  let prodRow := (prodRows.find? (fun r =>
    cleanCell (coalesce (cellByHeader r idx "model_id") (r.getD 0 Cell.null)) = model)).getD []
  { model_id := cleanCell (coalesce (cellByHeader prodRow idx "model_id") (prodRow.getD 0 Cell.null))
    title := cleanCell (coalesce (cellByHeader prodRow idx "title") (prodRow.getD 1 Cell.null))
    series := cleanCell (coalesce (cellByHeader prodRow idx "series") (prodRow.getD 2 Cell.null))
    base_price := jsOr0 (jsNumber (coalesce
      (coalesce (cellByHeader prodRow idx "base_price") (prodRow.getD 3 Cell.null))
      (Cell.num 0))) }

/-! ## Concrete inputs for the claims -/

/-- One-hop catalog: provider `a` with two options, dependent `d` whose
options both require `a = "A1"`, the second flagged as default. -/
def catOneHop : Catalog :=
  [("a", [mkOpt "A1" "" "" true, mkOpt "A2" "" "" false]),
   ("d", [mkOpt "D1" "a" "A1" false, mkOpt "D2" "a" "A1" true])]

/-- Two percentage options over base 1000 (the spec's pricing scenario). -/
def catPct : Catalog :=
  [("tone", [mkOpt "P10" "" "" false "pct" 10]),
   ("rim", [mkOpt "P5" "" "" false "pct" 5])]

/-- The selection matching `catPct`. -/
def selPct : Sel :=
  [("tone", "P10"), ("rim", "P5")]

/-- A product on sale: base 1000, sale price 100, sale active. -/
def prodSaleNeg : ProductP :=
  { base_price := 1000, sale_price := 100, sale_active := true }

/-- Two flat options, one negative and large enough to drive the running
sale total to 0. -/
def catSaleNeg : Catalog :=
  [("g1", [mkOpt "minus" "" "" false "flat" (-100)]),
   ("g2", [mkOpt "plus" "" "" false "flat" 50])]

/-- The selection matching `catSaleNeg`. -/
def selSaleNeg : Sel :=
  [("g1", "minus"), ("g2", "plus")]

/-- The spec's sale-duplication example: base 1000, sale 800 active. -/
def prodSaleW : ProductP :=
  { base_price := 1000, sale_price := 800, sale_active := true }

/-- One selected flat +50 option. -/
def catSaleW : Catalog :=
  [("g", [mkOpt "opt50" "" "" false "flat" 50])]

/-- The selection matching `catSaleW`. -/
def selSaleW : Sel :=
  [("g", "opt50")]

/-- A dependent entry is settled in a selection when re-running
`chooseDefault` over its valid subset would reproduce exactly the entry the
selection already holds (present or absent). -/
def settledEntry (s : Sel) (e : String × List Opt) : Prop :=
  match chooseDefault (validOf e.2 s) (selGet s e.1) with
  | some n => selGet s e.1 = some n
  | none => selGet s e.1 = none

/-- One-hop hypothesis package for a catalog: dependent-group keys are
unique, no option of a dependent group names a dependent group as its
dependency target, and option names of dependent groups are nonempty (the
normalizer skips rows with empty option names). -/
def OneHopCatalog (cat : Catalog) : Prop :=
  ((dependentsOf cat).map Prod.fst).Nodup ∧
  (∀ e ∈ dependentsOf cat, ∀ o ∈ e.2, hasDep o = true →
    o.dep_groupCanon ∉ (dependentsOf cat).map Prod.fst) ∧
  (∀ e ∈ dependentsOf cat, ∀ o ∈ e.2, o.option_name ≠ "")

instance (cat : Catalog) : Decidable (OneHopCatalog cat) := by
  unfold OneHopCatalog
  infer_instance

/-! ## Selection-map lemmas -/

theorem selGet_selSet_self (s : Sel) (g v : String) : selGet (selSet s g v) g = some v := by
  induction s with
  | nil => simp [selSet, selGet]
  | cons p rest ih =>
    by_cases h : p.1 = g
    · simp [selSet, selGet, h]
    · simp [selSet, selGet, h, ih]

theorem selGet_selSet_ne (s : Sel) (g k v : String) (h : k ≠ g) :
    selGet (selSet s g v) k = selGet s k := by
  induction s with
  | nil => simp [selSet, selGet, h, Ne.symm h]
  | cons p rest ih =>
    by_cases hp : p.1 = g
    · subst hp
      simp [selSet, selGet, Ne.symm h]
    · by_cases hk : p.1 = k
      · simp [selSet, selGet, hp, hk, h]
      · simp [selSet, selGet, hp, hk, ih]

theorem selGet_selDel_self (s : Sel) (g : String) : selGet (selDel s g) g = none := by
  induction s with
  | nil => simp [selDel, selGet]
  | cons p rest ih =>
    by_cases h : p.1 = g
    · simp [selDel, h, ih]
    · simp [selDel, selGet, h, ih]

theorem selGet_selDel_ne (s : Sel) (g k : String) (h : k ≠ g) :
    selGet (selDel s g) k = selGet s k := by
  induction s with
  | nil => simp [selDel]
  | cons p rest ih =>
    by_cases hp : p.1 = g
    · subst hp
      simp [selDel, selGet, Ne.symm h, ih]
    · by_cases hk : p.1 = k
      · simp [selDel, selGet, hp, hk, h]
      · simp [selDel, selGet, hp, hk, ih]

theorem selSet_eq_of_get (s : Sel) (g v : String) (h : selGet s g = some v) :
    selSet s g v = s := by
  induction s with
  | nil => simp [selGet] at h
  | cons p rest ih =>
    by_cases hp : p.1 = g
    · simp [selGet, hp] at h
      cases p
      simp_all [selSet]
    · simp [selGet, hp] at h
      simp [selSet, hp, ih h]

theorem selDel_eq_of_get_none (s : Sel) (g : String) (h : selGet s g = none) :
    selDel s g = s := by
  induction s with
  | nil => simp [selDel]
  | cons p rest ih =>
    by_cases hp : p.1 = g
    · simp [selGet, hp] at h
    · simp [selGet, hp] at h
      simp [selDel, hp, ih h]

/-! ## Settlement-pass lemmas -/

theorem dependencyOk_congr (o : Opt) (s₁ s₂ : Sel)
    (h : selGet s₁ o.dep_groupCanon = selGet s₂ o.dep_groupCanon) :
    dependencyOk o s₁ = dependencyOk o s₂ := by
  unfold dependencyOk
  rw [h]

theorem validOf_congr (l : List Opt) (s₁ s₂ : Sel)
    (h : ∀ o ∈ l, hasDep o = true → selGet s₁ o.dep_groupCanon = selGet s₂ o.dep_groupCanon) :
    validOf l s₁ = validOf l s₂ := by
  unfold validOf
  apply List.filter_congr
  intro o ho
  by_cases hd : hasDep o = true
  · rw [dependencyOk_congr o s₁ s₂ (h o ho hd)]
  · have hdep : o.dep_groupCanon = "" := by
      simpa [hasDep] using hd
    simp [dependencyOk, hdep]

theorem chooseDefault_none_iff (V : List Opt) (cur : Option String) :
    chooseDefault V cur = none ↔ V = [] := by
  cases V with
  | nil => simp [chooseDefault]
  | cons first rest =>
    simp only [chooseDefault]
    constructor
    · intro h
      split at h
      · cases cur <;> simp_all
      · split at h <;> simp_all
    · intro h
      exact absurd h (by simp)

theorem chooseDefault_some_mem (V : List Opt) (cur : Option String) (n : String)
    (h : chooseDefault V cur = some n) : ∃ o ∈ V, o.option_name = n := by
  cases V with
  | nil => simp [chooseDefault] at h
  | cons first rest =>
    simp only [chooseDefault] at h
    split at h
    · cases cur with
      | none => simp_all
      | some c =>
        rename_i hcond
        simp only [Option.some.injEq] at h
        subst h
        simp only [Bool.and_eq_true, decide_eq_true_eq, List.any_eq_true] at hcond
        obtain ⟨-, o, ho, hon⟩ := hcond
        exact ⟨o, ho, hon⟩
    · split at h
      · rename_i d hd
        cases h
        exact ⟨d, List.mem_of_find?_eq_some hd, rfl⟩
      · cases h
        exact ⟨first, List.mem_cons_self first rest, rfl⟩

theorem chooseDefault_keep (V : List Opt) (n : String) (hne : n ≠ "")
    (hmem : ∃ o ∈ V, o.option_name = n) : chooseDefault V (some n) = some n := by
  obtain ⟨o, ho, hon⟩ := hmem
  cases V with
  | nil => simp at ho
  | cons first rest =>
    have hany : (first :: rest).any (fun x => x.option_name = n) = true := by
      simp only [List.any_eq_true, decide_eq_true_eq]
      exact ⟨o, ho, hon⟩
    simp [chooseDefault, hne, hany]

theorem selGet_normGroup_ne (s : Sel) (g : String) (l : List Opt) (k : String) (h : k ≠ g) :
    selGet (normGroup s g l) k = selGet s k := by
  unfold normGroup
  cases chooseDefault (validOf l s) (selGet s g) with
  | none => exact selGet_selDel_ne s g k h
  | some n => exact selGet_selSet_ne s g k n h

theorem selGet_pruneGroup_ne (s : Sel) (g : String) (l : List Opt) (k : String) (h : k ≠ g) :
    selGet (pruneGroup s g l) k = selGet s k := by
  unfold pruneGroup
  split
  · exact selGet_selDel_ne s g k h
  · rfl

theorem selGet_normalizeDependents (D : Catalog) (s : Sel) (k : String)
    (h : k ∉ D.map Prod.fst) : selGet (normalizeDependents D s) k = selGet s k := by
  induction D generalizing s with
  | nil => rfl
  | cons e rest ih =>
    simp only [List.map_cons, List.mem_cons, not_or] at h
    rw [normalizeDependents, ih (normGroup s e.1 e.2) h.2,
      selGet_normGroup_ne s e.1 e.2 k h.1]

theorem selGet_pruneDependents (D : Catalog) (s : Sel) (k : String)
    (h : k ∉ D.map Prod.fst) : selGet (pruneDependents D s) k = selGet s k := by
  induction D generalizing s with
  | nil => rfl
  | cons e rest ih =>
    simp only [List.map_cons, List.mem_cons, not_or] at h
    rw [pruneDependents, ih (pruneGroup s e.1 e.2) h.2,
      selGet_pruneGroup_ne s e.1 e.2 k h.1]

/-- After `normalizeDependents` over entries with unique keys whose
dependency targets all lie outside the processed keys (one-hop chains) and
whose option names are nonempty, every processed entry is settled. -/
theorem normalize_settles (D : Catalog) (s : Sel)
    (hnd : (D.map Prod.fst).Nodup)
    (hone : ∀ e ∈ D, ∀ o ∈ e.2, hasDep o = true → o.dep_groupCanon ∉ D.map Prod.fst)
    (hnames : ∀ e ∈ D, ∀ o ∈ e.2, o.option_name ≠ "") :
    ∀ e ∈ D, settledEntry (normalizeDependents D s) e := by
  induction D generalizing s with
  | nil =>
    intro e he
    simp at he
  | cons e0 rest ih =>
    have hnd0 : e0.1 ∉ rest.map Prod.fst ∧ (rest.map Prod.fst).Nodup := by
      rw [List.map_cons, List.nodup_cons] at hnd
      exact hnd
    intro e he
    rw [normalizeDependents]
    rcases List.mem_cons.mp he with rfl | heR
    · have hone0 : ∀ o ∈ e.2, hasDep o = true →
          o.dep_groupCanon ∉ (e :: rest).map Prod.fst :=
        hone e (List.mem_cons_self e rest)
      have hget : selGet (normalizeDependents rest (normGroup s e.1 e.2)) e.1 =
          selGet (normGroup s e.1 e.2) e.1 :=
        selGet_normalizeDependents rest (normGroup s e.1 e.2) e.1 hnd0.1
      have hv1 : validOf e.2 (normalizeDependents rest (normGroup s e.1 e.2)) =
          validOf e.2 (normGroup s e.1 e.2) := by
        apply validOf_congr
        intro o ho hd
        apply selGet_normalizeDependents
        have hmem := hone0 o ho hd
        simp only [List.map_cons, List.mem_cons, not_or] at hmem
        exact hmem.2
      have hv2 : validOf e.2 (normGroup s e.1 e.2) = validOf e.2 s := by
        apply validOf_congr
        intro o ho hd
        apply selGet_normGroup_ne
        have hmem := hone0 o ho hd
        simp only [List.map_cons, List.mem_cons, not_or] at hmem
        exact hmem.1
      cases hc : chooseDefault (validOf e.2 s) (selGet s e.1) with
      | some n =>
        have hset : normGroup s e.1 e.2 = selSet s e.1 n := by
          unfold normGroup
          rw [hc]
        have hgs : selGet (normGroup s e.1 e.2) e.1 = some n := by
          rw [hset]
          exact selGet_selSet_self s e.1 n
        obtain ⟨o, hoV, hon⟩ := chooseDefault_some_mem _ _ _ hc
        have hoMem : o ∈ e.2 := List.mem_of_mem_filter hoV
        have hnne : n ≠ "" := by
          rw [← hon]
          exact hnames e (List.mem_cons_self e rest) o hoMem
        unfold settledEntry
        rw [hv1, hv2, hget, hgs,
          chooseDefault_keep (validOf e.2 s) n hnne ⟨o, hoV, hon⟩]
      | none =>
        have hV : validOf e.2 s = [] := (chooseDefault_none_iff _ _).mp hc
        have hset : normGroup s e.1 e.2 = selDel s e.1 := by
          unfold normGroup
          rw [hc]
        have hgs : selGet (normGroup s e.1 e.2) e.1 = none := by
          rw [hset]
          exact selGet_selDel_self s e.1
        unfold settledEntry
        rw [hv1, hv2, hV, hget, hgs]
        simp [chooseDefault]
    · refine ih (normGroup s e0.1 e0.2) hnd0.2 ?_ ?_ e heR
      · intro e' he' o ho hd
        have hmem := hone e' (List.mem_cons_of_mem e0 he') o ho hd
        simp only [List.map_cons, List.mem_cons, not_or] at hmem
        exact hmem.2
      · intro e' he' o ho
        exact hnames e' (List.mem_cons_of_mem e0 he') o ho

/-- Pruning is a no-op on a selection whose dependent entries are all
settled. -/
theorem pruneDependents_fix (D : Catalog) (s : Sel)
    (h : ∀ e ∈ D, settledEntry s e) : pruneDependents D s = s := by
  induction D with
  | nil => rfl
  | cons e0 rest ih =>
    have hstep : pruneGroup s e0.1 e0.2 = s := by
      unfold pruneGroup
      split
      · rename_i hv
        have h0 := h e0 (List.mem_cons_self e0 rest)
        unfold settledEntry at h0
        rw [hv] at h0
        simp only [chooseDefault] at h0
        exact selDel_eq_of_get_none s e0.1 h0
      · rfl
    rw [pruneDependents, hstep]
    exact ih (fun e he => h e (List.mem_cons_of_mem e0 he))

/-- Normalization is a no-op on a selection whose dependent entries are all
settled. -/
theorem normalizeDependents_fix (D : Catalog) (s : Sel)
    (h : ∀ e ∈ D, settledEntry s e) : normalizeDependents D s = s := by
  induction D with
  | nil => rfl
  | cons e0 rest ih =>
    have hstep : normGroup s e0.1 e0.2 = s := by
      have h0 := h e0 (List.mem_cons_self e0 rest)
      unfold settledEntry at h0
      unfold normGroup
      cases hc : chooseDefault (validOf e0.2 s) (selGet s e0.1) with
      | some n =>
        rw [hc] at h0
        exact selSet_eq_of_get s e0.1 n h0
      | none =>
        rw [hc] at h0
        exact selDel_eq_of_get_none s e0.1 h0
    rw [normalizeDependents, hstep]
    exact ih (fun e he => h e (List.mem_cons_of_mem e0 he))

/-- After one settlement pass over a one-hop catalog, every dependent entry
is settled. -/
theorem settle_settled (cat : Catalog) (s : Sel) (h : OneHopCatalog cat) :
    ∀ e ∈ dependentsOf cat, settledEntry (settle cat s) e :=
  normalize_settles (dependentsOf cat) (pruneDependents (dependentsOf cat) s)
    h.1 h.2.1 h.2.2


/-! ## Pricing lemmas -/

/-- The accumulation loop adds, to the running total, each selected pair's
contribution computed from the original base only. -/
theorem calcPriceAux_eq (base : ℚ) (cat : Catalog) (sel : Sel) (t : ℚ) :
    calcPriceAux base cat sel t = t + (sel.map (pairContribution base cat)).sum := by
  induction sel generalizing t with
  | nil => simp [calcPriceAux]
  | cons p rest ih =>
    obtain ⟨g, name⟩ := p
    rw [List.map_cons, List.sum_cons, calcPriceAux]
    cases hf : (catFind cat g).find? (fun o => o.option_name = name) with
    | none =>
      simp only [pairContribution, hf]
      rw [ih]
      ring
    | some item =>
      simp only [pairContribution, hf]
      split_ifs <;> rw [ih] <;> simp +decide [optContribution, *] <;> ring

/-- The regular component of `recalcAux` is the unguarded accumulation over
the regular base: the guard touches only the sale component. -/
theorem recalcAux_fst (a : Bool) (bR bS : ℚ) (sel : Sel) (cat : Catalog) (acc : ℚ × ℚ) :
    (recalcAux a bR bS sel cat acc).1 = priceFromBaseAux bR sel cat acc.1 := by
  induction cat generalizing acc with
  | nil => rfl
  | cons e rest ih =>
    obtain ⟨g, opts⟩ := e
    cases hsel : selGet sel g with
    | none =>
      simp only [recalcAux, priceFromBaseAux, hsel]
      exact ih acc
    | some chosen =>
      by_cases hch : chosen = ""
      · simp only [recalcAux, priceFromBaseAux, hsel, if_pos hch]
        exact ih acc
      · simp only [recalcAux, priceFromBaseAux, hsel, if_neg hch]
        cases hfind : opts.find? (fun o => o.option_name = chosen) with
        | none => exact ih acc
        | some opt =>
          by_cases hp : opt.price_type = "percent"
          · simp only [if_pos hp]
            exact ih _
          · simp only [if_neg hp]
            exact ih _

/-- While the running sale total stays positive — guaranteed when it starts
positive, the sale base is nonnegative and every delta is nonnegative — the
guarded sale accumulation coincides with the unguarded accumulation over
the sale base. -/
theorem recalcAux_snd_pos (bR bS : ℚ) (sel : Sel) (cat : Catalog) (acc : ℚ × ℚ)
    (hpos : 0 < acc.2) (hbs : 0 ≤ bS)
    (hd : ∀ e ∈ cat, ∀ o ∈ e.2, 0 ≤ o.price_delta) :
    (recalcAux true bR bS sel cat acc).2 = priceFromBaseAux bS sel cat acc.2 := by
  induction cat generalizing acc with
  | nil => rfl
  | cons e rest ih =>
    obtain ⟨g, opts⟩ := e
    have hdRest : ∀ e ∈ rest, ∀ o ∈ e.2, 0 ≤ o.price_delta :=
      fun e he o ho => hd e (List.mem_cons_of_mem _ he) o ho
    cases hsel : selGet sel g with
    | none =>
      simp only [recalcAux, priceFromBaseAux, hsel]
      exact ih acc hpos hdRest
    | some chosen =>
      by_cases hch : chosen = ""
      · simp only [recalcAux, priceFromBaseAux, hsel, if_pos hch]
        exact ih acc hpos hdRest
      · simp only [recalcAux, priceFromBaseAux, hsel, if_neg hch]
        cases hfind : opts.find? (fun o => o.option_name = chosen) with
        | none => exact ih acc hpos hdRest
        | some opt =>
          have hoMem : opt ∈ opts := List.mem_of_find?_eq_some hfind
          have hδ : 0 ≤ opt.price_delta :=
            hd (g, opts) (List.mem_cons_self _ _) opt hoMem
          by_cases hp : opt.price_type = "percent"
          · simp only [if_pos hp]
            rw [if_pos (show True ∧ 0 < acc.2 from ⟨trivial, hpos⟩)]
            have hcontrib : 0 ≤ bS * (opt.price_delta / 100) := by
              apply mul_nonneg hbs
              positivity
            exact ih (acc.1 + bR * (opt.price_delta / 100), acc.2 + bS * (opt.price_delta / 100))
              (add_pos_of_pos_of_nonneg hpos hcontrib) hdRest
          · simp only [if_neg hp]
            rw [if_pos (show True ∧ 0 < acc.2 from ⟨trivial, hpos⟩)]
            exact ih (acc.1 + opt.price_delta, acc.2 + opt.price_delta)
              (add_pos_of_pos_of_nonneg hpos hδ) hdRest

/-! ## Claim theorems -/

/-- C1 (counterexample): settle() is NOT idempotent on every catalog.  On
the two-hop catalog `catTwoHop`, the selection produced by one settle()
pass over `{a ↦ A1}` changes again under a second settle() pass: the first
pass sets `c ↦ C1`, which only the second pass propagates into `b ↦ B1`. -/
theorem settle_not_idempotent_two_hop :
    settle catTwoHop (settle catTwoHop [("a", "A1")]) ≠ settle catTwoHop [("a", "A1")] := by
  decide

/-- C1 (amended): for catalogs whose dependency targets all lie outside the
dependent groups (one-hop chains), with unique dependent-group keys and
nonempty option names, a second settle() pass returns the selection of the
first pass unchanged — for every starting selection. -/
theorem settle_idempotent_one_hop (cat : Catalog) (s : Sel) (h : OneHopCatalog cat) :
    settle cat (settle cat s) = settle cat s := by
  have hs := settle_settled cat s h
  show normalizeDependents (dependentsOf cat)
    (pruneDependents (dependentsOf cat) (settle cat s)) = settle cat s
  rw [pruneDependents_fix _ _ hs, normalizeDependents_fix _ _ hs]

/-- C1 (witness): the one-hop catalog `catOneHop` satisfies the hypotheses
and settle() is idempotent on it at a concrete selection. -/
theorem settle_idempotent_one_hop_witness :
    OneHopCatalog catOneHop ∧
    settle catOneHop (settle catOneHop [("a", "A2"), ("d", "D1")]) =
      settle catOneHop [("a", "A2"), ("d", "D1")] :=
  ⟨by decide, settle_idempotent_one_hop catOneHop [("a", "A2"), ("d", "D1")] (by decide)⟩

/-- C2 (counterexample): after a settlement pass over the two-hop catalog
`catTwoHop` starting from `{a ↦ A2, c ↦ C1}`, the selection still holds
`b ↦ B1` although group `b` has NO visible dependency-satisfied option at
all (its only option requires `c = C1`, but the pass re-defaulted `c` to
`C2`): a dangling entry survives the pass. -/
theorem settle_leaves_dangling_dependent_two_hop :
    catFind catTwoHop "b" = [mkOpt "B1" "c" "C1" false] ∧
    selGet (settle catTwoHop [("a", "A2"), ("c", "C1")]) "b" = some "B1" ∧
    validOf (catFind catTwoHop "b") (settle catTwoHop [("a", "A2"), ("c", "C1")]) = [] := by
  decide

/-- C2 (amended): for one-hop catalogs, after a settlement pass every
dependent-group key present in the selection references an option that
exists in that group's list, is visible, and has its dependency satisfied
by the settled selection. -/
theorem settle_dependent_entries_valid (cat : Catalog) (s : Sel) (h : OneHopCatalog cat)
    (e : String × List Opt) (he : e ∈ dependentsOf cat) (v : String)
    (hv : selGet (settle cat s) e.1 = some v) :
    ∃ o ∈ e.2, o.option_name = v ∧ o.visible = true ∧
      dependencyOk o (settle cat s) = true := by
  have hse := settle_settled cat s h e he
  unfold settledEntry at hse
  cases hc : chooseDefault (validOf e.2 (settle cat s)) (selGet (settle cat s) e.1) with
  | none =>
    rw [hc] at hse
    rw [hse] at hv
    cases hv
  | some n =>
    rw [hc] at hse
    rw [hse] at hv
    injection hv with hnv
    obtain ⟨o, hoV, hon⟩ := chooseDefault_some_mem _ _ _ hc
    have hsplit := List.mem_filter.mp hoV
    have hvis := hsplit.2
    simp only [Bool.and_eq_true] at hvis
    exact ⟨o, hsplit.1, by rw [hon, hnv], hvis.1, hvis.2⟩

/-- C2 (witness): on the one-hop catalog `catOneHop`, settling `{a ↦ A1}`
selects `d ↦ D2`, and that entry references the existing, visible,
dependency-satisfied option `D2`. -/
theorem settle_dependent_entries_valid_witness :
    OneHopCatalog catOneHop ∧
    ∃ o ∈ [mkOpt "D1" "a" "A1" false, mkOpt "D2" "a" "A1" true],
      o.option_name = "D2" ∧ o.visible = true ∧
      dependencyOk o (settle catOneHop [("a", "A1")]) = true :=
  ⟨by decide,
   settle_dependent_entries_valid catOneHop [("a", "A1")] (by decide)
     ("d", [mkOpt "D1" "a" "A1" false, mkOpt "D2" "a" "A1" true]) (by decide)
     "D2" (by decide)⟩

/-- C3: every selected option of percentage type contributes
`base * (delta / 100)` with `base` the original base passed to calcPrice —
the total is the base plus the sum of per-selection contributions, each a
function of the original base only, never of the running total; with base
1000 and two pct options (+10 and +5) in the same pass the total is
exactly 1150. -/
theorem calcPrice_pct_relative_to_original_base :
    (∀ (base : ℚ) (sel : Sel) (cat : Catalog),
      calcPrice base sel cat = base + (sel.map (pairContribution base cat)).sum) ∧
    (∀ (base : ℚ) (cat : Catalog) (p : String × String) (item : Opt),
      (catFind cat p.1).find? (fun o => o.option_name = p.2) = some item →
      item.price_type = "pct" →
      pairContribution base cat p = base * (item.price_delta / 100)) ∧
    calcPrice 1000 selPct catPct = 1150 := by
  refine ⟨fun base sel cat => calcPriceAux_eq base cat sel base, ?_, ?_⟩
  · intro base cat p item hf hp
    simp +decide [pairContribution, hf, optContribution, hp]
  · simp +decide [calcPrice, calcPriceAux, selPct, catPct, catFind, mkOpt]
    norm_num

/-- C4 (counterexample): the sale total is NOT the regular accumulation
algorithm applied unchanged to the sale base.  With sale base 100 and
selected flat deltas −100 then +50, the guarded sale accumulation stops at
0 (the `totalSale > 0` guard fails) and yields 0, while the same algorithm
over the sale base yields 50. -/
theorem recalcPrice_sale_guard_skips_deltas :
    (recalcPrice prodSaleNeg catSaleNeg selSaleNeg).2 ≠
      priceFromBase prodSaleNeg.sale_price catSaleNeg selSaleNeg := by
  have h1 : (recalcPrice prodSaleNeg catSaleNeg selSaleNeg).2 = 0 := by
    simp +decide [recalcPrice, recalcAux, prodSaleNeg, catSaleNeg, selSaleNeg, mkOpt, selGet]
  have h2 : priceFromBase prodSaleNeg.sale_price catSaleNeg selSaleNeg = 50 := by
    simp +decide [priceFromBase, priceFromBaseAux, prodSaleNeg, catSaleNeg, selSaleNeg, mkOpt,
      selGet]
  rw [h1, h2]
  norm_num

/-- C4 (amended): for a product with an active, positive sale price, the
regular total is the unguarded accumulation over the regular base, and —
as long as every option delta in the catalog is nonnegative, so the
running sale total can never fall to 0 — the sale total equals the same
accumulation algorithm applied to the sale base.  A negative delta that
drives the running sale total to 0 or below makes the `totalSale > 0`
guard skip every later delta on the sale side only. -/
theorem recalcPrice_sale_total_same_algorithm (p : ProductP) (cat : Catalog) (sel : Sel)
    (hA : p.sale_active = true) (hpos : 0 < p.sale_price)
    (hd : ∀ e ∈ cat, ∀ o ∈ e.2, 0 ≤ o.price_delta) :
    (recalcPrice p cat sel).1 = priceFromBase p.base_price cat sel ∧
    (recalcPrice p cat sel).2 = priceFromBase p.sale_price cat sel := by
  constructor
  · exact recalcAux_fst p.sale_active p.base_price _ sel cat _
  · show (recalcAux p.sale_active p.base_price
      (if p.sale_active then p.sale_price else 0) sel cat
      (p.base_price, if p.sale_active then p.sale_price else 0)).2 = _
    rw [hA]
    simp only [if_pos rfl]
    exact recalcAux_snd_pos p.base_price p.sale_price sel cat
      (p.base_price, p.sale_price) hpos (le_of_lt hpos) hd

/-- C4 (witness): the spec's own sale example — base 1000, sale 800
active, one flat +50 option — satisfies the hypotheses, and both totals
are the one algorithm over the two bases. -/
theorem recalcPrice_sale_total_same_algorithm_witness :
    prodSaleW.sale_active = true ∧ 0 < prodSaleW.sale_price ∧
    ((recalcPrice prodSaleW catSaleW selSaleW).1 =
        priceFromBase prodSaleW.base_price catSaleW selSaleW ∧
      (recalcPrice prodSaleW catSaleW selSaleW).2 =
        priceFromBase prodSaleW.sale_price catSaleW selSaleW) :=
  ⟨rfl, by decide,
   recalcPrice_sale_total_same_algorithm prodSaleW catSaleW selSaleW rfl (by decide)
     (by decide)⟩

/-- C5 (counterexample): the unified-loader variant of productInfo.js does
NOT signal a missing product row: with no rows at all (so no row matches
the requested key "LEGACY35-LB-3"), `loadData` falls back to the empty row
and continues with an empty product record — empty model id, empty title
and base price 0. -/
theorem loadProduct2_empty_record_on_missing_row :
    loadProduct2 (fun _ => none) [] "LEGACY35-LB-3" =
      { model_id := "", title := "", series := "", base_price := 0 } := by
  decide

/-- C5 (amended): the original productInfo.js `loadData` throws `Product
not found` whenever the key cell of the first (key-filtered) product row is
falsy — in particular when no row came back at all — and every record it
does return carries a truthy model id; the unified-loader rewrite of the
same file instead proceeds with an empty substitute record. -/
theorem loadProduct1_signals_not_found :
    (∀ prodRows : List (List Cell),
      truthy ((prodRows.headD []).getD 0 Cell.null) = false →
      loadProduct1 prodRows = Except.error "Product not found") ∧
    (∀ (prodRows : List (List Cell)) (pr : ProductV1),
      loadProduct1 prodRows = Except.ok pr → truthy pr.model_id = true) := by
  constructor
  · intro prodRows h
    simp [loadProduct1]
    simpa using h
  · intro prodRows pr h
    simp only [loadProduct1] at h
    by_cases hk : truthy ((prodRows.headD []).getD 0 Cell.null) = true
    · rw [if_pos hk] at h
      injection h with h
      rw [← h]
      exact hk
    · rw [if_neg hk] at h
      cases h

/-- C5 (witness): with no product rows the key cell is falsy and
`loadProduct1` returns the `Product not found` error. -/
theorem loadProduct1_signals_not_found_witness :
    truthy ((([] : List (List Cell)).headD []).getD 0 Cell.null) = false ∧
    loadProduct1 [] = Except.error "Product not found" :=
  ⟨by decide, loadProduct1_signals_not_found.1 [] (by decide)⟩

/-- C6 (counterexample): `canon("Head  Stock")` does NOT equal
`canon("headstock")` in any variant: productInfo.js's canon collapses the
spaces to one space ("head stock") instead of deleting them, and
customBuilder.js's canon keeps the spacing as is ("head  stock"). -/
theorem canon_head_stock_not_headstock :
    canonPI "Head  Stock" ≠ canonPI "headstock" ∧
    canonCB "Head  Stock" ≠ canonCB "headstock" := by
  decide

/-- C6 (amended): productInfo.js's canon lower-cases and collapses each
nonempty run of spacing/punctuation to a single space — so inputs that
differ only by case, or only by which nonempty separator run stands
between the alphanumeric runs, canonicalize identically ("Head  Stock" and
"Head-Stock" both become "head stock") — while the customBuilder/part_004
canon only trims and lower-cases, preserving interior spacing. -/
theorem canon_behavior :
    canonPI "Head  Stock" = "head stock" ∧
    canonPI "Head-Stock" = "head stock" ∧
    canonPI "HEAD  STOCK" = canonPI "head  stock" ∧
    canonPI "HEADSTOCK" = canonPI "headstock" ∧
    canonCB "Head  Stock" = "head  stock" ∧
    canonCB "HEADSTOCK" = canonCB "headstock" := by
  decide

/-- C7 (counterexample): boolean coercion is NOT uniform across normalizer
variants: productInfo.js's original loadData coerces the numeric cell 1 to
false (its coercion only accepts boolean true and the string "true"), and
the unified-loader variant's visible coercion maps the arbitrary string
"garbage" to true (it accepts everything that does not spell "false"). -/
theorem bool_coercion_variants_disagree :
    toBoolPI (Cell.num 1) = false ∧ visibleV2 (Cell.str "garbage") = true := by
  decide

/-- C7 (amended): the customBuilder.js / part_004 / seriesCards.js
coercion is exactly the claimed one — true for the boolean true, a string
lower-casing to "true", or the number 1, false otherwise — while
productInfo.js's original loadData accepts only the boolean true and
"true"-strings (numeric 1 is false there). -/
theorem bool_coercion_characterization :
    (∀ c : Cell, toBool3 c = true ↔
      (c = Cell.bool true ∨ (∃ s, c = Cell.str s ∧ strToLower s = "true") ∨
        c = Cell.num 1)) ∧
    (∀ c : Cell, toBoolPI c = true ↔
      (c = Cell.bool true ∨ ∃ s, c = Cell.str s ∧ strToLower s = "true")) := by
  constructor
  · intro c
    cases c <;> simp [toBool3]
  · intro c
    cases c <;> simp [toBoolPI]

/-- C8 (code bug): a non-numeric non-empty price-delta cell is stored as
NaN, not 0, by `Number(priceDelta || 0)` in productInfo.js's original
loadData and in customBuilder.js — the `|| 0` default runs before the
parse, so only falsy cells default; the unified-loader variant's
`+price_delta || 0` demonstrates the intended 0-defaulting. -/
theorem malformed_delta_stored_as_nan :
    priceDeltaV1 (Cell.str "abc") = JsNum.nan ∧
    priceDeltaV2 (Cell.str "abc") = 0 := by
  decide

/-- C9 (counterexample): a settlement pass does NOT read only
provider-group entries: on `catOneHop` (whose only provider group is `a`),
two selections that agree on the provider entry `a` but differ on the
dependent entry `d` settle to different selections — the pass reads the
dependent group's current entry to decide whether to keep it. -/
theorem settle_reads_dependent_entries :
    (providersOf catOneHop).map Prod.fst = ["a"] ∧
    selGet [("a", "A1"), ("d", "D1")] "a" = selGet [("a", "A1")] "a" ∧
    settle catOneHop [("a", "A1"), ("d", "D1")] ≠ settle catOneHop [("a", "A1")] := by
  decide

/-- C9 (amended): a settlement pass writes only dependent-group entries:
every key outside the dependent groups' keys — in particular every
provider-group key — has an identical entry (present or absent, and its
value) before and after the pass. -/
theorem settle_writes_only_dependent_keys (cat : Catalog) (s : Sel) (k : String)
    (h : k ∉ (dependentsOf cat).map Prod.fst) :
    selGet (settle cat s) k = selGet s k := by
  unfold settle
  rw [selGet_normalizeDependents _ _ _ h, selGet_pruneDependents _ _ _ h]

/-- C9 (witness): the provider key `a` of `catOneHop` is outside the
dependent keys and its entry survives a settlement pass unchanged. -/
theorem settle_writes_only_dependent_keys_witness :
    ("a" ∉ (dependentsOf catOneHop).map Prod.fst) ∧
    selGet (settle catOneHop [("a", "A1"), ("d", "D1")]) "a" =
      selGet [("a", "A1"), ("d", "D1")] "a" :=
  ⟨by decide,
   settle_writes_only_dependent_keys catOneHop [("a", "A1"), ("d", "D1")] "a" (by decide)⟩

/-- C10: `sale_active` can only be true when the parsed sale base is a
finite number strictly greater than 0 — the coercion conjoins the
boolean-ish active flag with `sale_price > 0`, and `NaN > 0` is false, so
an active flag combined with a zero, negative, absent or unparsable
sale-price cell always yields `sale_active = false`. -/
theorem sale_active_needs_positive_price (activeCell saleCell : Cell)
    (h : saleActiveOf activeCell saleCell = true) :
    ∃ q : ℚ, saleBaseOf saleCell = JsNum.val q ∧ 0 < q := by
  unfold saleActiveOf at h
  rw [Bool.and_eq_true] at h
  cases hn : saleBaseOf saleCell with
  | nan =>
    rw [hn] at h
    simp [jsGtZero] at h
  | val q =>
    rw [hn] at h
    refine ⟨q, rfl, ?_⟩
    have := h.2
    simpa [jsGtZero] using this

/-- C10 (witness): an active flag with sale price 800 is sale-active, and
the parsed sale base is the positive number 800. -/
theorem sale_active_needs_positive_price_witness :
    saleActiveOf (Cell.bool true) (Cell.num 800) = true ∧
    ∃ q : ℚ, saleBaseOf (Cell.num 800) = JsNum.val q ∧ 0 < q :=
  ⟨by decide, sale_active_needs_positive_price (Cell.bool true) (Cell.num 800) (by decide)⟩

/-- C3 (witness): the selected pct option `P10` of `catPct` resolves by
name, and its contribution to base 1000 is `1000 * (10 / 100)` — computed
from the original base. -/
theorem calcPrice_pct_relative_to_original_base_witness :
    (catFind catPct "tone").find? (fun o => o.option_name = "P10") =
      some (mkOpt "P10" "" "" false "pct" 10) ∧
    pairContribution 1000 catPct ("tone", "P10") =
      1000 * ((mkOpt "P10" "" "" false "pct" 10).price_delta / 100) :=
  ⟨by decide,
   calcPrice_pct_relative_to_original_base.2.1 1000 catPct ("tone", "P10")
     (mkOpt "P10" "" "" false "pct" 10) (by decide) (by decide)⟩
